import Mathlib

/-!
Verification of the dbus data-slot module (`dbus-dataslot.c`).

The module has two parts: a slot-ID allocator
(`_dbus_data_slot_allocator_alloc` / `_dbus_data_slot_allocator_free`)
handing out small integer identifiers from a table of ints, and a
per-object slot list (`_dbus_data_slot_list_set` / `_dbus_data_slot_list_get`
/ `_dbus_data_slot_list_free`) storing a `(value, destructor)` pair at each
identifier position.

Modelling conventions:
- `dbus_realloc` success is an explicit Boolean oracle `growOk` passed to the
  operations that may grow storage; `false` means the reallocation returns
  `NULL`, in which case the C code bails out without mutating anything.
- The allocator mutex is not modelled: every operation runs entirely under
  the lock, so each C call is one atomic step on the state.
- `NULL` pointers are `none`; stored values are `Option Int`, destructor
  functions are identified by a `Nat` tag (`none` = no destructor).
- Destructor invocations performed by `_dbus_data_slot_list_free` are an
  explicit event trace: a list of `(destructor, value)` pairs in invocation
  order.  `_dbus_data_slot_list_set` also reports such a trace so that the
  absence of destructor calls inside `set` is visible; the C code of `set`
  contains no call through a `DBusFreeFunction`, hence that trace is empty.
- `_dbus_assert` conditions are preconditions: they appear as hypotheses of
  the theorems, not inside the definitions (asserts are compiled out in
  release builds and do not change the state).
-/

/-- Allocator state (`DBusDataSlotAllocator` from `dbus-dataslot.h`):
`allocated_slots` is the reallocated table of ints — entry `i` holds `i` when
slot `i` is in use and a negative sentinel (`-1`) when it is free;
`n_used_slots` counts the in-use entries.  The C field `n_allocated_slots`
is the table length, recovered by `n_allocated_slots` below. -/
structure DBusDataSlotAllocator where
  allocated_slots : List Int
  n_used_slots : Nat
deriving Repr, DecidableEq

/-- The C field `n_allocated_slots`: the length of the reallocated table. -/
def n_allocated_slots (a : DBusDataSlotAllocator) : Nat :=
  a.allocated_slots.length

/-- State produced by `_dbus_data_slot_allocator_init` (lines 43-54): empty
table, zero used count.  (Mutex creation is not modelled.) -/
def _dbus_data_slot_allocator_init : DBusDataSlotAllocator :=
  { allocated_slots := [], n_used_slots := 0 }

/-- The scanning `while` loop of `_dbus_data_slot_allocator_alloc`
(lines 73-83): starting from index 0, find the first entry holding a
negative value.  Returns `none` when the loop runs off the end of the
table (the case the C code guards with
`_dbus_assert (slot < allocator->n_allocated_slots)`). -/
def scanFree : List Int → Option Nat
  | [] => none
  | x :: rest => if x < 0 then some 0 else (scanFree rest).map (fun i => i + 1)

/-- Model of `_dbus_data_slot_allocator_alloc` (lines 63-110).  Returns the
C function's return value (the slot ID, or `-1` on failure) paired with the
allocator state after the call.  `growOk` is the `dbus_realloc` oracle.
In the branch where the scan finds no free entry (impossible when the
representation invariant holds, asserted in C), the loop leaves
`slot = n_allocated_slots` and the state untouched, which is what the
release-built C code does. -/
def _dbus_data_slot_allocator_alloc (growOk : Bool) (a : DBusDataSlotAllocator) :
    Int × DBusDataSlotAllocator :=
  if a.n_used_slots < n_allocated_slots a then
    match scanFree a.allocated_slots with
    | some slot =>
        ((slot : Int),
          { allocated_slots := a.allocated_slots.set slot (slot : Int),
            n_used_slots := a.n_used_slots + 1 })
    | none => ((n_allocated_slots a : Int), a)
  else
    if growOk then
      ((n_allocated_slots a : Int),
        { allocated_slots :=
            a.allocated_slots ++ [(n_allocated_slots a : Int)],
          n_used_slots := a.n_used_slots + 1 })
    else
      (-1, a)

/-- Model of `_dbus_data_slot_allocator_free` (lines 122-142): mark the
entry with the `-1` sentinel, decrement `n_used_slots`; when the used count
reaches zero, release the table and reset `n_allocated_slots` to zero.
The asserted preconditions (`slot < n_allocated_slots`,
`allocated_slots[slot] == slot`) are hypotheses of the theorems. -/
def _dbus_data_slot_allocator_free (a : DBusDataSlotAllocator) (slot : Nat) :
    DBusDataSlotAllocator :=
  let marked : DBusDataSlotAllocator :=
    { allocated_slots := a.allocated_slots.set slot (-1),
      n_used_slots := a.n_used_slots - 1 }
  if marked.n_used_slots = 0 then
    { allocated_slots := [], n_used_slots := 0 }
  else
    marked

/-- Number of in-use (non-negative) entries of an allocator table. -/
def countUsed (l : List Int) : Nat :=
  (l.filter (fun x => decide (0 ≤ x))).length

/-- Every in-use (non-negative) entry of the table holds its own index
(the self-tagging consistency property of the allocator table). -/
def selfTagged (l : List Int) : Prop :=
  ∀ i, ∀ h : i < l.length, 0 ≤ l[i] → l[i] = (i : Int)

/-- Representation invariant of the allocator: `n_used_slots` counts the
non-negative entries, and every non-negative entry is self-tagged. -/
def allocatorInv (a : DBusDataSlotAllocator) : Prop :=
  a.n_used_slots = countUsed a.allocated_slots ∧ selfTagged a.allocated_slots

/-- Slot `slot` is currently allocated: exactly the condition asserted by
the C code, `slot < n_allocated_slots && allocated_slots[slot] == slot`. -/
def slotAllocated (a : DBusDataSlotAllocator) (slot : Nat) : Prop :=
  a.allocated_slots[slot]? = some (slot : Int)

instance (l : List Int) : Decidable (selfTagged l) :=
  inferInstanceAs (Decidable (∀ i, ∀ h : i < l.length, 0 ≤ l[i] → l[i] = (i : Int)))

instance (a : DBusDataSlotAllocator) : Decidable (allocatorInv a) :=
  inferInstanceAs
    (Decidable (a.n_used_slots = countUsed a.allocated_slots ∧
      selfTagged a.allocated_slots))

instance (a : DBusDataSlotAllocator) (slot : Nat) : Decidable (slotAllocated a slot) :=
  inferInstanceAs (Decidable (a.allocated_slots[slot]? = some (slot : Int)))

/-- The currently-live identifiers: the non-negative entries of the table
(each in-use entry stores its own identifier). -/
def liveIds (a : DBusDataSlotAllocator) : List Int :=
  a.allocated_slots.filter (fun x => decide (0 ≤ x))

/-- One client call on the shared allocator: an `allocate` (with its
`dbus_realloc` oracle) or a `free` of a slot. -/
inductive AllocOp where
  | opAlloc (growOk : Bool)
  | opFree (slot : Nat)
deriving Repr, DecidableEq

/-- Apply one allocator operation to the state. -/
def runOp (a : DBusDataSlotAllocator) : AllocOp → DBusDataSlotAllocator
  | AllocOp.opAlloc g => (_dbus_data_slot_allocator_alloc g a).2
  | AllocOp.opFree s => _dbus_data_slot_allocator_free a s

/-- Run a sequence of allocator operations. -/
def runOps : DBusDataSlotAllocator → List AllocOp → DBusDataSlotAllocator
  | a, [] => a
  | a, op :: rest => runOps (runOp a op) rest

/-- A well-formed call sequence: every `free` targets a currently-live
slot (the caller contract asserted by `_dbus_data_slot_allocator_free`). -/
def wfOps : DBusDataSlotAllocator → List AllocOp → Bool
  | _, [] => true
  | a, AllocOp.opAlloc g :: rest => wfOps (runOp a (AllocOp.opAlloc g)) rest
  | a, AllocOp.opFree s :: rest =>
      decide (slotAllocated a s) && wfOps (_dbus_data_slot_allocator_free a s) rest

/-- One entry of a slot list (`DBusDataSlot` from `dbus-dataslot.h`):
a stored value (`data`, `NULL` = `none`) and an optional destructor
(`free_data_func`, identified by a tag). -/
structure DBusDataSlot where
  data : Option Int
  free_data_func : Option Nat
deriving Repr, DecidableEq

/-- Per-object slot list (`DBusDataSlotList`): the reallocated entry array.
The C field `n_slots` is its length, recovered by `n_slots` below. -/
structure DBusDataSlotList where
  slots : List DBusDataSlot
deriving Repr, DecidableEq

/-- The C field `n_slots`: the length of the entry array. -/
def n_slots (list : DBusDataSlotList) : Nat :=
  list.slots.length

/-- State produced by `_dbus_data_slot_list_init` (lines 148-153). -/
def _dbus_data_slot_list_init : DBusDataSlotList :=
  { slots := [] }

/-- Result of a successful `_dbus_data_slot_list_set`: the updated list,
the outgoing pair handed back through `old_data` / `old_free_func`, and
the trace of destructor invocations performed by the call. -/
structure SetResult where
  list : DBusDataSlotList
  old_data : Option Int
  old_free_func : Option Nat
  destructor_calls : List (Nat × Option Int)
deriving Repr, DecidableEq

/-- The unconditional tail of `_dbus_data_slot_list_set` (lines 205-213):
read the old `(data, free_data_func)` pair out of the entry at `slot`,
store the new pair there.  No `DBusFreeFunction` is called, so the
destructor trace is empty. -/
def slotListStore (slots : List DBusDataSlot) (slot : Nat)
    (data : Option Int) (fdf : Option Nat) : SetResult :=
  { list := { slots := slots.set slot { data := data, free_data_func := fdf } },
    old_data := (slots.getD slot { data := none, free_data_func := none }).data,
    old_free_func :=
      (slots.getD slot { data := none, free_data_func := none }).free_data_func,
    destructor_calls := [] }

/-- Model of `_dbus_data_slot_list_set` (lines 172-214).  When `slot` is
beyond the current length the array is reallocated to exactly `slot + 1`
entries and the new entries are zero-filled (lines 184-203); `growOk` is
the `dbus_realloc` oracle and `none` is the `FALSE` return on growth
failure.  The asserted precondition (`slot` currently allocated from the
allocator) is a hypothesis of the theorems. -/
def _dbus_data_slot_list_set (growOk : Bool) (list : DBusDataSlotList)
    (slot : Nat) (data : Option Int) (free_data_func : Option Nat) :
    Option SetResult :=
  if slot ≥ n_slots list then
    if growOk then
      some (slotListStore
        (list.slots ++
          List.replicate (slot + 1 - n_slots list)
            { data := none, free_data_func := none })
        slot data free_data_func)
    else
      none
  else
    some (slotListStore list.slots slot data free_data_func)

/-- Model of `_dbus_data_slot_list_get` (lines 225-237): return the stored
value (or `NULL` when `slot` is beyond the list length) together with the
list state after the call — the C function never writes, so that state is
the input list. -/
def _dbus_data_slot_list_get (list : DBusDataSlotList) (slot : Nat) :
    Option Int × DBusDataSlotList :=
  if slot ≥ n_slots list then
    (none, list)
  else
    ((list.slots.getD slot { data := none, free_data_func := none }).data, list)

/-- The walking loop of `_dbus_data_slot_list_free` (lines 251-259): for
each entry from index 0 upward whose `free_data_func` is non-`NULL`, invoke
it on the entry's `data`; the returned trace lists those invocations in
order. -/
def slotListFreeLoop : List DBusDataSlot → List (Nat × Option Int)
  | [] => []
  | s :: rest =>
      match s.free_data_func with
      | some f => (f, s.data) :: slotListFreeLoop rest
      | none => slotListFreeLoop rest

/-- Model of `_dbus_data_slot_list_free` (lines 246-264): the trace of
destructor invocations, paired with the final list state (storage
released, `n_slots` reset to zero). -/
def _dbus_data_slot_list_free (list : DBusDataSlotList) :
    List (Nat × Option Int) × DBusDataSlotList :=
  (slotListFreeLoop list.slots, { slots := [] })

/-! Helper lemmas about the allocator model. -/

theorem selfTagged_iff (l : List Int) :
    selfTagged l ↔ ∀ (i : Nat) (v : Int), l[i]? = some v → 0 ≤ v → v = (i : Int) := by
  constructor
  · intro h i v hv h0
    rcases List.getElem?_eq_some.mp hv with ⟨hlt, hval⟩
    subst hval
    exact h i hlt h0
  · intro h i hlt h0
    exact h i l[i] (List.getElem?_eq_getElem hlt) h0

theorem scanFree_some {l : List Int} {i : Nat} (h : scanFree l = some i) :
    ∃ v, l[i]? = some v ∧ v < 0 := by
  induction l generalizing i with
  | nil => simp [scanFree] at h
  | cons x rest ih =>
    rw [scanFree] at h
    by_cases hx : x < 0
    · rw [if_pos hx] at h
      injection h with h
      subst h
      exact ⟨x, by simp, hx⟩
    · rw [if_neg hx] at h
      rcases Option.map_eq_some'.mp h with ⟨j, hj, hij⟩
      subst hij
      rcases ih hj with ⟨v, hv, hneg⟩
      exact ⟨v, by simpa using hv, hneg⟩

theorem scanFree_min {l : List Int} {i : Nat} (h : scanFree l = some i) :
    ∀ (j : Nat) (v : Int), j < i → l[j]? = some v → 0 ≤ v := by
  induction l generalizing i with
  | nil => intro j v _ hv; simp at hv
  | cons x rest ih =>
    rw [scanFree] at h
    by_cases hx : x < 0
    · rw [if_pos hx] at h
      injection h with h
      subst h
      intro j v hj _
      omega
    · rw [if_neg hx] at h
      rcases Option.map_eq_some'.mp h with ⟨i', hi', hii⟩
      subst hii
      intro j v hj hv
      cases j with
      | zero =>
        rw [List.getElem?_cons_zero] at hv
        injection hv with hv
        subst hv
        exact le_of_not_lt hx
      | succ j' =>
        rw [List.getElem?_cons_succ] at hv
        exact ih hi' j' v (by omega) hv

theorem scanFree_none {l : List Int} (h : scanFree l = none) :
    ∀ (i : Nat) (v : Int), l[i]? = some v → 0 ≤ v := by
  induction l with
  | nil => intro i v hv; simp at hv
  | cons x rest ih =>
    rw [scanFree] at h
    by_cases hx : x < 0
    · rw [if_pos hx] at h
      simp at h
    · rw [if_neg hx] at h
      have hrest : scanFree rest = none := by
        cases hres : scanFree rest with
        | none => rfl
        | some j => rw [hres] at h; simp at h
      intro i v hv
      cases i with
      | zero =>
        rw [List.getElem?_cons_zero] at hv
        injection hv with hv
        subst hv
        exact le_of_not_lt hx
      | succ i' =>
        rw [List.getElem?_cons_succ] at hv
        exact ih hrest i' v hv

theorem countUsed_all_nonneg {l : List Int}
    (h : ∀ (i : Nat) (v : Int), l[i]? = some v → 0 ≤ v) : countUsed l = l.length := by
  have hf : l.filter (fun x => decide (0 ≤ x)) = l := by
    apply List.filter_eq_self.mpr
    intro a ha
    rcases List.getElem?_of_mem ha with ⟨n, hn⟩
    exact decide_eq_true (h n a hn)
  unfold countUsed
  rw [hf]

theorem countUsed_set_of_neg {l : List Int} {i : Nat} {v : Int}
    (hv : l[i]? = some v) (hneg : v < 0) {w : Int} (hw : 0 ≤ w) :
    countUsed (l.set i w) = countUsed l + 1 := by
  induction l generalizing i with
  | nil => simp at hv
  | cons x rest ih =>
    cases i with
    | zero =>
      rw [List.getElem?_cons_zero] at hv
      injection hv with hv
      subst hv
      simp [countUsed, List.filter_cons, hw, not_le.mpr hneg]
    | succ i' =>
      rw [List.getElem?_cons_succ] at hv
      have hrec := ih hv
      simp only [List.set_cons_succ, countUsed, List.filter_cons] at hrec ⊢
      by_cases hx : (0 : Int) ≤ x
      · simp [hx] at hrec ⊢
        omega
      · simp [hx] at hrec ⊢
        omega

theorem countUsed_set_neg {l : List Int} {i : Nat} {v : Int}
    (hv : l[i]? = some v) (hnn : 0 ≤ v) :
    countUsed l = countUsed (l.set i (-1)) + 1 := by
  induction l generalizing i with
  | nil => simp at hv
  | cons x rest ih =>
    cases i with
    | zero =>
      rw [List.getElem?_cons_zero] at hv
      injection hv with hv
      subst hv
      simp [countUsed, List.filter_cons, hnn]
    | succ i' =>
      rw [List.getElem?_cons_succ] at hv
      have hrec := ih hv
      simp only [List.set_cons_succ, countUsed, List.filter_cons] at hrec ⊢
      by_cases hx : (0 : Int) ≤ x
      · simp [hx] at hrec ⊢
        omega
      · simp [hx] at hrec ⊢
        omega

theorem countUsed_pos {l : List Int} {i : Nat} {v : Int}
    (hv : l[i]? = some v) (hnn : 0 ≤ v) : 1 ≤ countUsed l := by
  have := countUsed_set_neg hv hnn
  omega

theorem countUsed_append_nonneg {l : List Int} {k : Int} (hk : 0 ≤ k) :
    countUsed (l ++ [k]) = countUsed l + 1 := by
  unfold countUsed
  rw [List.filter_append]
  simp [hk]

theorem selfTagged_set_self {l : List Int} (h : selfTagged l) (i : Nat) :
    selfTagged (l.set i (i : Int)) := by
  rw [selfTagged_iff] at h ⊢
  intro j v hv h0
  by_cases hij : i = j
  · subst hij
    by_cases hlt : i < l.length
    · rw [List.getElem?_set_self hlt] at hv
      injection hv with hv
      omega
    · rw [List.set_eq_of_length_le (le_of_not_lt hlt)] at hv
      exact h i v hv h0
  · rw [List.getElem?_set_ne hij] at hv
    exact h j v hv h0

theorem selfTagged_set_neg {l : List Int} (h : selfTagged l) (s : Nat) :
    selfTagged (l.set s (-1)) := by
  rw [selfTagged_iff] at h ⊢
  intro j v hv h0
  by_cases hsj : s = j
  · subst hsj
    by_cases hlt : s < l.length
    · rw [List.getElem?_set_self hlt] at hv
      injection hv with hv
      omega
    · rw [List.set_eq_of_length_le (le_of_not_lt hlt)] at hv
      exact h s v hv h0
  · rw [List.getElem?_set_ne hsj] at hv
    exact h j v hv h0

theorem selfTagged_append_self {l : List Int} (h : selfTagged l) :
    selfTagged (l ++ [(l.length : Int)]) := by
  rw [selfTagged_iff] at h ⊢
  intro j v hv h0
  rw [List.getElem?_append] at hv
  by_cases hj : j < l.length
  · rw [if_pos hj] at hv
    exact h j v hv h0
  · rw [if_neg hj] at hv
    by_cases hje : j = l.length
    · subst hje
      simp at hv
      omega
    · have h1 : 1 ≤ j - l.length := by omega
      rw [List.getElem?_eq_none (by simpa using h1)] at hv
      simp at hv

theorem nodup_filter_shifted :
    ∀ (l : List Int) (k : Nat),
      (∀ (i : Nat) (v : Int), l[i]? = some v → 0 ≤ v → v = (i : Int) + k) →
      (l.filter (fun x => decide (0 ≤ x))).Nodup := by
  intro l
  induction l with
  | nil => intro k _; simp
  | cons x rest ih =>
    intro k h
    have hrest : ∀ (i : Nat) (v : Int), rest[i]? = some v → 0 ≤ v → v = (i : Int) + (k + 1) := by
      intro i v hv h0
      have := h (i + 1) v (by simpa using hv) h0
      push_cast at this ⊢
      omega
    rw [List.filter_cons]
    by_cases hx : (0 : Int) ≤ x
    · rw [if_pos (by simpa using hx)]
      rw [List.nodup_cons]
      constructor
      · intro hmem
        rcases List.mem_filter.mp hmem with ⟨hmem', _⟩
        rcases List.getElem?_of_mem hmem' with ⟨n, hn⟩
        have hx' := h 0 x (by simp) hx
        have hxn := hrest n x hn hx
        push_cast at hx' hxn
        omega
      · exact ih (k + 1) hrest
    · rw [if_neg (by simpa using hx)]
      exact ih (k + 1) hrest

theorem liveIds_nodup {a : DBusDataSlotAllocator}
    (h : selfTagged a.allocated_slots) : (liveIds a).Nodup := by
  apply nodup_filter_shifted a.allocated_slots 0
  intro i v hv h0
  have := (selfTagged_iff _).mp h i v hv h0
  omega

theorem alloc_scan_eq {a : DBusDataSlotAllocator} {i : Nat} (g : Bool)
    (hlt : a.n_used_slots < n_allocated_slots a)
    (hscan : scanFree a.allocated_slots = some i) :
    _dbus_data_slot_allocator_alloc g a =
      ((i : Int),
        { allocated_slots := a.allocated_slots.set i (i : Int),
          n_used_slots := a.n_used_slots + 1 }) := by
  unfold _dbus_data_slot_allocator_alloc
  rw [if_pos hlt, hscan]

theorem alloc_scan_none_eq {a : DBusDataSlotAllocator} (g : Bool)
    (hlt : a.n_used_slots < n_allocated_slots a)
    (hscan : scanFree a.allocated_slots = none) :
    _dbus_data_slot_allocator_alloc g a = ((n_allocated_slots a : Int), a) := by
  unfold _dbus_data_slot_allocator_alloc
  rw [if_pos hlt, hscan]

theorem alloc_grow_eq {a : DBusDataSlotAllocator}
    (hge : ¬ a.n_used_slots < n_allocated_slots a) :
    _dbus_data_slot_allocator_alloc true a =
      ((n_allocated_slots a : Int),
        { allocated_slots := a.allocated_slots ++ [(n_allocated_slots a : Int)],
          n_used_slots := a.n_used_slots + 1 }) ∧
    _dbus_data_slot_allocator_alloc false a = (-1, a) := by
  constructor
  · unfold _dbus_data_slot_allocator_alloc
    rw [if_neg hge]
    rfl
  · unfold _dbus_data_slot_allocator_alloc
    rw [if_neg hge]
    rfl

theorem free_eq (a : DBusDataSlotAllocator) (s : Nat) :
    _dbus_data_slot_allocator_free a s =
      if a.n_used_slots - 1 = 0 then
        { allocated_slots := [], n_used_slots := 0 }
      else
        { allocated_slots := a.allocated_slots.set s (-1),
          n_used_slots := a.n_used_slots - 1 } := rfl

theorem allocatorInv_init : allocatorInv _dbus_data_slot_allocator_init := by
  constructor
  · rfl
  · intro i h
    exact absurd h (Nat.not_lt_zero i)

theorem allocatorInv_alloc {a : DBusDataSlotAllocator} (g : Bool)
    (hinv : allocatorInv a) :
    allocatorInv (_dbus_data_slot_allocator_alloc g a).2 := by
  obtain ⟨hcount, htag⟩ := hinv
  by_cases hlt : a.n_used_slots < n_allocated_slots a
  · cases hscan : scanFree a.allocated_slots with
    | none =>
      rw [alloc_scan_none_eq g hlt hscan]
      exact ⟨hcount, htag⟩
    | some i =>
      rw [alloc_scan_eq g hlt hscan]
      rcases scanFree_some hscan with ⟨v, hv, hneg⟩
      refine ⟨?_, selfTagged_set_self htag i⟩
      show a.n_used_slots + 1 = countUsed (a.allocated_slots.set i (i : Int))
      rw [countUsed_set_of_neg hv hneg (Int.natCast_nonneg i)]
      omega
  · cases g with
    | true =>
      rw [(alloc_grow_eq hlt).1]
      refine ⟨?_, ?_⟩
      · show a.n_used_slots + 1 = countUsed (a.allocated_slots ++ [(n_allocated_slots a : Int)])
        rw [countUsed_append_nonneg (Int.natCast_nonneg _)]
        omega
      · show selfTagged (a.allocated_slots ++ [(n_allocated_slots a : Int)])
        exact selfTagged_append_self htag
    | false =>
      rw [(alloc_grow_eq hlt).2]
      exact ⟨hcount, htag⟩

theorem allocatorInv_free {a : DBusDataSlotAllocator} {s : Nat}
    (hinv : allocatorInv a) (hs : slotAllocated a s) :
    allocatorInv (_dbus_data_slot_allocator_free a s) := by
  obtain ⟨hcount, htag⟩ := hinv
  have hs' : a.allocated_slots[s]? = some (s : Int) := hs
  have hcnt := countUsed_set_neg hs' (Int.natCast_nonneg s)
  rw [free_eq]
  by_cases hz : a.n_used_slots - 1 = 0
  · rw [if_pos hz]
    exact allocatorInv_init
  · rw [if_neg hz]
    refine ⟨?_, selfTagged_set_neg htag s⟩
    show a.n_used_slots - 1 = countUsed (a.allocated_slots.set s (-1))
    omega

theorem allocatorInv_runOps :
    ∀ (ops : List AllocOp) (a : DBusDataSlotAllocator),
      allocatorInv a → wfOps a ops = true →
      allocatorInv (runOps a ops) := by
  intro ops
  induction ops with
  | nil => intro a hinv _; exact hinv
  | cons op rest ih =>
    intro a hinv hwf
    cases op with
    | opAlloc g =>
      replace hwf : wfOps (runOp a (AllocOp.opAlloc g)) rest = true := hwf
      show allocatorInv (runOps (runOp a (AllocOp.opAlloc g)) rest)
      exact ih _ (allocatorInv_alloc g hinv) hwf
    | opFree s =>
      replace hwf :
          (decide (slotAllocated a s) &&
            wfOps (_dbus_data_slot_allocator_free a s) rest) = true := hwf
      rw [Bool.and_eq_true] at hwf
      obtain ⟨hs, hwf⟩ := hwf
      show allocatorInv (runOps (_dbus_data_slot_allocator_free a s) rest)
      exact ih _ (allocatorInv_free hinv (of_decide_eq_true hs)) hwf

/-! Claim theorems. -/

/-- Claim C1: for every allocator state satisfying the representation
invariant in which `n_used_slots < n_allocated_slots` (a free slot exists),
`_dbus_data_slot_allocator_alloc` returns the smallest index whose table
entry holds the free sentinel, sets that entry to its own index, and
increments `n_used_slots` by one, leaving all other entries and
`n_allocated_slots` unchanged. -/
theorem alloc_reuses_first_free (a : DBusDataSlotAllocator) (g : Bool)
    (hinv : allocatorInv a) (h : a.n_used_slots < n_allocated_slots a) :
    ∃ slot : Nat, ∃ v : Int,
      a.allocated_slots[slot]? = some v ∧ v < 0 ∧
      (∀ (j : Nat) (w : Int), j < slot → a.allocated_slots[j]? = some w → 0 ≤ w) ∧
      _dbus_data_slot_allocator_alloc g a =
        ((slot : Int),
          { allocated_slots := a.allocated_slots.set slot (slot : Int),
            n_used_slots := a.n_used_slots + 1 }) ∧
      n_allocated_slots (_dbus_data_slot_allocator_alloc g a).2 = n_allocated_slots a ∧
      (∀ j : Nat, j ≠ slot →
        (_dbus_data_slot_allocator_alloc g a).2.allocated_slots[j]? =
          a.allocated_slots[j]?) := by
  cases hscan : scanFree a.allocated_slots with
  | none =>
    exfalso
    have hall := scanFree_none hscan
    have hcu := countUsed_all_nonneg hall
    have hlen : n_allocated_slots a = a.allocated_slots.length := rfl
    have hc := hinv.1
    omega
  | some i =>
    rcases scanFree_some hscan with ⟨v, hv, hneg⟩
    refine ⟨i, v, hv, hneg, scanFree_min hscan, alloc_scan_eq g h hscan, ?_, ?_⟩
    · rw [alloc_scan_eq g h hscan]
      simp [n_allocated_slots]
    · intro j hj
      rw [alloc_scan_eq g h hscan]
      exact List.getElem?_set_ne (Ne.symm hj)

/-- Witness for C1: the allocator with table `[0, -1]` and one used slot
reuses index 1 (the first free entry). -/
theorem alloc_reuses_first_free_witness :
    ∃ slot : Nat, ∃ v : Int,
      (DBusDataSlotAllocator.mk [0, -1] 1).allocated_slots[slot]? = some v ∧ v < 0 ∧
      (∀ (j : Nat) (w : Int), j < slot →
        (DBusDataSlotAllocator.mk [0, -1] 1).allocated_slots[j]? = some w → 0 ≤ w) ∧
      _dbus_data_slot_allocator_alloc true (DBusDataSlotAllocator.mk [0, -1] 1) =
        ((slot : Int),
          { allocated_slots := (DBusDataSlotAllocator.mk [0, -1] 1).allocated_slots.set slot (slot : Int),
            n_used_slots := (DBusDataSlotAllocator.mk [0, -1] 1).n_used_slots + 1 }) ∧
      n_allocated_slots (_dbus_data_slot_allocator_alloc true (DBusDataSlotAllocator.mk [0, -1] 1)).2 =
        n_allocated_slots (DBusDataSlotAllocator.mk [0, -1] 1) ∧
      (∀ j : Nat, j ≠ slot →
        (_dbus_data_slot_allocator_alloc true (DBusDataSlotAllocator.mk [0, -1] 1)).2.allocated_slots[j]? =
          (DBusDataSlotAllocator.mk [0, -1] 1).allocated_slots[j]?) :=
  alloc_reuses_first_free (DBusDataSlotAllocator.mk [0, -1] 1) true (by decide) (by decide)

/-- Claim C2: when no free slot exists (`n_used_slots = n_allocated_slots`),
`_dbus_data_slot_allocator_alloc` grows the table by exactly one entry; on
growth failure it returns `-1` with the state untouched; on success it
returns the old `n_allocated_slots` as the new identifier, the new entry is
self-tagged, and both counters increase by exactly one. -/
theorem alloc_grows_by_one (a : DBusDataSlotAllocator)
    (h : a.n_used_slots = n_allocated_slots a) :
    _dbus_data_slot_allocator_alloc false a = (-1, a) ∧
    _dbus_data_slot_allocator_alloc true a =
      ((n_allocated_slots a : Int),
        { allocated_slots := a.allocated_slots ++ [(n_allocated_slots a : Int)],
          n_used_slots := a.n_used_slots + 1 }) ∧
    n_allocated_slots (_dbus_data_slot_allocator_alloc true a).2 =
      n_allocated_slots a + 1 ∧
    (_dbus_data_slot_allocator_alloc true a).2.n_used_slots = a.n_used_slots + 1 ∧
    (_dbus_data_slot_allocator_alloc true a).2.allocated_slots[n_allocated_slots a]? =
      some (n_allocated_slots a : Int) := by
  have hge : ¬ a.n_used_slots < n_allocated_slots a := by omega
  obtain ⟨ht, hf⟩ := alloc_grow_eq hge
  refine ⟨hf, ht, ?_, ?_, ?_⟩
  · rw [ht]
    simp [n_allocated_slots]
  · rw [ht]
  · rw [ht]
    exact List.getElem?_concat_length a.allocated_slots ((n_allocated_slots a : Int))

/-- Witness for C2: growing the full one-entry allocator `[0]`. -/
theorem alloc_grows_by_one_witness :
    _dbus_data_slot_allocator_alloc false (DBusDataSlotAllocator.mk [0] 1) =
      (-1, DBusDataSlotAllocator.mk [0] 1) ∧
    _dbus_data_slot_allocator_alloc true (DBusDataSlotAllocator.mk [0] 1) =
      ((n_allocated_slots (DBusDataSlotAllocator.mk [0] 1) : Int),
        { allocated_slots :=
            (DBusDataSlotAllocator.mk [0] 1).allocated_slots ++
              [(n_allocated_slots (DBusDataSlotAllocator.mk [0] 1) : Int)],
          n_used_slots := (DBusDataSlotAllocator.mk [0] 1).n_used_slots + 1 }) ∧
    n_allocated_slots (_dbus_data_slot_allocator_alloc true (DBusDataSlotAllocator.mk [0] 1)).2 =
      n_allocated_slots (DBusDataSlotAllocator.mk [0] 1) + 1 ∧
    (_dbus_data_slot_allocator_alloc true (DBusDataSlotAllocator.mk [0] 1)).2.n_used_slots =
      (DBusDataSlotAllocator.mk [0] 1).n_used_slots + 1 ∧
    (_dbus_data_slot_allocator_alloc true (DBusDataSlotAllocator.mk [0] 1)).2.allocated_slots[n_allocated_slots (DBusDataSlotAllocator.mk [0] 1)]? =
      some (n_allocated_slots (DBusDataSlotAllocator.mk [0] 1) : Int) :=
  alloc_grows_by_one (DBusDataSlotAllocator.mk [0] 1) (by decide)

/-- Claim C3: freeing a currently-allocated slot marks its entry with the
free sentinel and decrements `n_used_slots` by one; when the used count
thereby reaches zero the table storage is released and `n_allocated_slots`
is reset to zero, and the next (successful) allocate returns identifier 0. -/
theorem free_marks_and_shrinks (a : DBusDataSlotAllocator) (slot : Nat)
    (hinv : allocatorInv a) (hs : slotAllocated a slot) :
    (_dbus_data_slot_allocator_free a slot).n_used_slots = a.n_used_slots - 1 ∧
    (a.n_used_slots ≠ 1 →
      (_dbus_data_slot_allocator_free a slot).allocated_slots =
        a.allocated_slots.set slot (-1)) ∧
    (a.n_used_slots = 1 →
      _dbus_data_slot_allocator_free a slot = _dbus_data_slot_allocator_init ∧
      (_dbus_data_slot_allocator_alloc true
          (_dbus_data_slot_allocator_free a slot)).1 = 0) := by
  have hs' : a.allocated_slots[slot]? = some (slot : Int) := hs
  have hpos := countUsed_pos hs' (Int.natCast_nonneg slot)
  have hc := hinv.1
  rw [free_eq]
  by_cases hz : a.n_used_slots - 1 = 0
  · rw [if_pos hz]
    refine ⟨?_, ?_, ?_⟩
    · show (0 : Nat) = a.n_used_slots - 1
      omega
    · intro hne
      omega
    · intro _
      exact ⟨rfl, by decide⟩
  · rw [if_neg hz]
    refine ⟨rfl, fun _ => rfl, ?_⟩
    intro he
    omega

/-- Witness for C3: freeing the only live slot of the allocator `[0]`
releases the table and the next allocate returns 0. -/
theorem free_marks_and_shrinks_witness :
    (_dbus_data_slot_allocator_free (DBusDataSlotAllocator.mk [0] 1) 0).n_used_slots =
      (DBusDataSlotAllocator.mk [0] 1).n_used_slots - 1 ∧
    _dbus_data_slot_allocator_free (DBusDataSlotAllocator.mk [0] 1) 0 =
      _dbus_data_slot_allocator_init ∧
    (_dbus_data_slot_allocator_alloc true
        (_dbus_data_slot_allocator_free (DBusDataSlotAllocator.mk [0] 1) 0)).1 = 0 := by
  have h := free_marks_and_shrinks (DBusDataSlotAllocator.mk [0] 1) 0 (by decide) (by decide)
  exact ⟨h.1, h.2.2 rfl⟩

/-- When the invariant holds, a successful allocate hands out an identifier
that was not live before the call and is live afterwards. -/
theorem alloc_fresh {a : DBusDataSlotAllocator} {g : Bool} {s : Int}
    {a2 : DBusDataSlotAllocator} (hinv : allocatorInv a)
    (heq : _dbus_data_slot_allocator_alloc g a = (s, a2)) (h0 : 0 ≤ s) :
    ¬ slotAllocated a s.toNat ∧ slotAllocated a2 s.toNat := by
  by_cases hlt : a.n_used_slots < n_allocated_slots a
  · cases hscan : scanFree a.allocated_slots with
    | none =>
      exfalso
      have hall := scanFree_none hscan
      have hcu := countUsed_all_nonneg hall
      have hlen : n_allocated_slots a = a.allocated_slots.length := rfl
      have hc := hinv.1
      omega
    | some i =>
      rw [alloc_scan_eq g hlt hscan, Prod.mk.injEq] at heq
      obtain ⟨hs, ha2⟩ := heq
      subst hs
      subst ha2
      rcases scanFree_some hscan with ⟨v, hv, hneg⟩
      rw [Int.toNat_natCast]
      constructor
      · intro hlive
        have hlive' : a.allocated_slots[i]? = some (i : Int) := hlive
        rw [hv] at hlive'
        injection hlive' with hvi
        omega
      · have hlt' : i < a.allocated_slots.length := (List.getElem?_eq_some.mp hv).1
        show (a.allocated_slots.set i (i : Int))[i]? = some (i : Int)
        exact List.getElem?_set_self hlt'
  · cases g with
    | true =>
      rw [(alloc_grow_eq hlt).1, Prod.mk.injEq] at heq
      obtain ⟨hs, ha2⟩ := heq
      subst hs
      subst ha2
      rw [Int.toNat_natCast]
      constructor
      · intro hlive
        have hlive' : a.allocated_slots[n_allocated_slots a]? =
            some (n_allocated_slots a : Int) := hlive
        have hnone : a.allocated_slots[n_allocated_slots a]? = none :=
          List.getElem?_eq_none (Nat.le_refl _)
        rw [hnone] at hlive'
        simp at hlive'
      · show (a.allocated_slots ++ [(n_allocated_slots a : Int)])[n_allocated_slots a]? =
          some (n_allocated_slots a : Int)
        exact List.getElem?_concat_length a.allocated_slots _
    | false =>
      rw [(alloc_grow_eq hlt).2, Prod.mk.injEq] at heq
      obtain ⟨hs, _⟩ := heq
      subst hs
      exact absurd h0 (by decide)

/-- Claim C4: starting from an initialized allocator, after any sequence of
allocate/free calls in which every free targets a currently-live
identifier, the currently-live identifiers are pairwise distinct, and an
allocate that returns a non-negative identifier never returns one that is
still live (and that identifier is live after the call). -/
theorem alloc_live_ids_distinct (ops : List AllocOp) (g : Bool)
    (hwf : wfOps _dbus_data_slot_allocator_init ops = true) :
    (liveIds (runOps _dbus_data_slot_allocator_init ops)).Nodup ∧
    (0 ≤ (_dbus_data_slot_allocator_alloc g
        (runOps _dbus_data_slot_allocator_init ops)).1 →
      ¬ slotAllocated (runOps _dbus_data_slot_allocator_init ops)
          (_dbus_data_slot_allocator_alloc g
            (runOps _dbus_data_slot_allocator_init ops)).1.toNat ∧
      slotAllocated (_dbus_data_slot_allocator_alloc g
          (runOps _dbus_data_slot_allocator_init ops)).2
        (_dbus_data_slot_allocator_alloc g
          (runOps _dbus_data_slot_allocator_init ops)).1.toNat) := by
  have hinv := allocatorInv_runOps ops _dbus_data_slot_allocator_init
    allocatorInv_init hwf
  refine ⟨liveIds_nodup hinv.2, ?_⟩
  intro h0
  exact alloc_fresh hinv rfl h0

/-- Witness for C4: allocate twice, free slot 0, then allocate again; the
live identifiers stay distinct and the new allocate reuses the dead slot 0,
which was not live. -/
theorem alloc_live_ids_distinct_witness :
    (liveIds (runOps _dbus_data_slot_allocator_init
        [AllocOp.opAlloc true, AllocOp.opAlloc true, AllocOp.opFree 0])).Nodup ∧
    (¬ slotAllocated (runOps _dbus_data_slot_allocator_init
          [AllocOp.opAlloc true, AllocOp.opAlloc true, AllocOp.opFree 0])
        (_dbus_data_slot_allocator_alloc true
          (runOps _dbus_data_slot_allocator_init
            [AllocOp.opAlloc true, AllocOp.opAlloc true, AllocOp.opFree 0])).1.toNat ∧
      slotAllocated (_dbus_data_slot_allocator_alloc true
          (runOps _dbus_data_slot_allocator_init
            [AllocOp.opAlloc true, AllocOp.opAlloc true, AllocOp.opFree 0])).2
        (_dbus_data_slot_allocator_alloc true
          (runOps _dbus_data_slot_allocator_init
            [AllocOp.opAlloc true, AllocOp.opAlloc true, AllocOp.opFree 0])).1.toNat) := by
  have h := alloc_live_ids_distinct
    [AllocOp.opAlloc true, AllocOp.opAlloc true, AllocOp.opFree 0] true (by decide)
  exact ⟨h.1, h.2 (by decide)⟩

/-! Helper lemmas about the slot-list model. -/

theorem set_in_range_eq {list : DBusDataSlotList} {slot : Nat} (g : Bool)
    (h : slot < n_slots list) (data : Option Int) (fdf : Option Nat) :
    _dbus_data_slot_list_set g list slot data fdf =
      some (slotListStore list.slots slot data fdf) := by
  unfold _dbus_data_slot_list_set
  rw [if_neg (by omega : ¬ slot ≥ n_slots list)]

theorem set_grow_eq {list : DBusDataSlotList} {slot : Nat}
    (h : n_slots list ≤ slot) (data : Option Int) (fdf : Option Nat) :
    _dbus_data_slot_list_set true list slot data fdf =
      some (slotListStore
        (list.slots ++ List.replicate (slot + 1 - n_slots list)
          { data := none, free_data_func := none }) slot data fdf) ∧
    _dbus_data_slot_list_set false list slot data fdf = none := by
  constructor
  · unfold _dbus_data_slot_list_set
    rw [if_pos (by omega : slot ≥ n_slots list)]
    rfl
  · unfold _dbus_data_slot_list_set
    rw [if_pos (by omega : slot ≥ n_slots list)]
    rfl

theorem grown_getElem_lt {list : DBusDataSlotList} {slot j : Nat} {d : DBusDataSlot}
    (hj : j < n_slots list) :
    (list.slots ++ List.replicate (slot + 1 - n_slots list) d)[j]? =
      list.slots[j]? := by
  have hj' : j < list.slots.length := hj
  rw [List.getElem?_append, if_pos hj']

theorem grown_getElem_ge {list : DBusDataSlotList} {slot j : Nat} {d : DBusDataSlot}
    (h : n_slots list ≤ j) (hj : j ≤ slot) :
    (list.slots ++ List.replicate (slot + 1 - n_slots list) d)[j]? = some d := by
  rw [List.getElem?_append_right h, List.getElem?_replicate]
  have hn : n_slots list = list.slots.length := rfl
  rw [if_pos (by omega)]

theorem grown_length {list : DBusDataSlotList} {slot : Nat}
    (h : n_slots list ≤ slot) (d : DBusDataSlot) :
    (list.slots ++ List.replicate (slot + 1 - n_slots list) d).length = slot + 1 := by
  rw [List.length_append, List.length_replicate]
  have hn : n_slots list = list.slots.length := rfl
  omega

theorem slotListFreeLoop_eq_filterMap (l : List DBusDataSlot) :
    slotListFreeLoop l =
      l.filterMap (fun s => s.free_data_func.map (fun f => (f, s.data))) := by
  induction l with
  | nil => rfl
  | cons s rest ih =>
    obtain ⟨d, f⟩ := s
    cases f with
    | none => simp [slotListFreeLoop, List.filterMap_cons, ih]
    | some f => simp [slotListFreeLoop, List.filterMap_cons, ih]

/-- Claim C5: a successful `_dbus_data_slot_list_set` hands back through
`old_data` / `old_free_func` exactly the pair previously stored at the slot
(absent/absent when nothing was stored there), stores the new pair at the
slot, and performs no destructor invocation itself. -/
theorem set_swaps_pair (allocator : DBusDataSlotAllocator)
    (list : DBusDataSlotList) (slot : Nat) (data : Option Int)
    (free_data_func : Option Nat) (g : Bool) (r : SetResult)
    (hvalid : slotAllocated allocator slot)
    (hsucc : _dbus_data_slot_list_set g list slot data free_data_func = some r) :
    r.old_data = ((list.slots[slot]?).getD (DBusDataSlot.mk none none)).data ∧
    r.old_free_func =
      ((list.slots[slot]?).getD (DBusDataSlot.mk none none)).free_data_func ∧
    r.list.slots[slot]? = some (DBusDataSlot.mk data free_data_func) ∧
    r.destructor_calls = [] := by
  by_cases h : n_slots list ≤ slot
  · cases g with
    | false =>
      rw [(set_grow_eq h data free_data_func).2] at hsucc
      cases hsucc
    | true =>
      rw [(set_grow_eq h data free_data_func).1] at hsucc
      injection hsucc with hr
      subst hr
      have hnone : list.slots[slot]? = none := List.getElem?_eq_none h
      have hg := @grown_getElem_ge list slot slot (DBusDataSlot.mk none none)
        h (Nat.le_refl slot)
      have hlen := grown_length h (DBusDataSlot.mk none none)
      refine ⟨?_, ?_, ?_, ?_⟩
      · simp only [slotListStore]
        rw [List.getD_eq_getElem?_getD, hg, hnone]
        rfl
      · simp only [slotListStore]
        rw [List.getD_eq_getElem?_getD, hg, hnone]
        rfl
      · simp only [slotListStore]
        exact List.getElem?_set_self (by omega)
      · rfl
  · rw [set_in_range_eq g (by omega) data free_data_func] at hsucc
    injection hsucc with hr
    subst hr
    refine ⟨?_, ?_, ?_, ?_⟩
    · simp only [slotListStore]
      rw [List.getD_eq_getElem?_getD]
    · simp only [slotListStore]
      rw [List.getD_eq_getElem?_getD]
    · simp only [slotListStore]
      have hlt : slot < list.slots.length := by
        have hn : n_slots list = list.slots.length := rfl
        omega
      exact List.getElem?_set_self hlt
    · rfl

/-- Witness for C5: overwriting slot 0 of a one-entry list returns the old
pair `(some 5, some 7)`, stores `(some 9, some 8)`, and calls no
destructor. -/
theorem set_swaps_pair_witness :
    (slotListStore [DBusDataSlot.mk (some 5) (some 7)] 0 (some 9) (some 8)).old_data =
      (((DBusDataSlotList.mk [DBusDataSlot.mk (some 5) (some 7)]).slots[0]?).getD
        (DBusDataSlot.mk none none)).data ∧
    (slotListStore [DBusDataSlot.mk (some 5) (some 7)] 0 (some 9) (some 8)).old_free_func =
      (((DBusDataSlotList.mk [DBusDataSlot.mk (some 5) (some 7)]).slots[0]?).getD
        (DBusDataSlot.mk none none)).free_data_func ∧
    (slotListStore [DBusDataSlot.mk (some 5) (some 7)] 0 (some 9) (some 8)).list.slots[0]? =
      some (DBusDataSlot.mk (some 9) (some 8)) ∧
    (slotListStore [DBusDataSlot.mk (some 5) (some 7)] 0 (some 9) (some 8)).destructor_calls = [] :=
  set_swaps_pair (DBusDataSlotAllocator.mk [0] 1)
    (DBusDataSlotList.mk [DBusDataSlot.mk (some 5) (some 7)]) 0 (some 9) (some 8)
    true (slotListStore [DBusDataSlot.mk (some 5) (some 7)] 0 (some 9) (some 8))
    (by decide) (by decide)

/-- Claim C6: when `slot` is at or beyond the list length, a successful
`_dbus_data_slot_list_set` grows the list to exactly `slot + 1` entries,
with every newly created entry zero-filled (in particular the returned old
pair is absent/absent, showing the entry at `slot` was zero-filled before
the store); on growth failure it returns `FALSE` (modelled as `none`: no
updated state exists, the input list is untouched). -/
theorem set_grows_minimally (allocator : DBusDataSlotAllocator)
    (list : DBusDataSlotList) (slot : Nat) (data : Option Int)
    (fdf : Option Nat) (hvalid : slotAllocated allocator slot)
    (h : n_slots list ≤ slot) :
    _dbus_data_slot_list_set false list slot data fdf = none ∧
    ∃ r, _dbus_data_slot_list_set true list slot data fdf = some r ∧
      n_slots r.list = slot + 1 ∧
      (∀ j : Nat, n_slots list ≤ j → j < slot →
        r.list.slots[j]? = some (DBusDataSlot.mk none none)) ∧
      r.old_data = none ∧ r.old_free_func = none := by
  obtain ⟨ht, hf⟩ := set_grow_eq h data fdf
  have hg := @grown_getElem_ge list slot slot (DBusDataSlot.mk none none)
    h (Nat.le_refl slot)
  have hlen := grown_length h (DBusDataSlot.mk none none)
  refine ⟨hf, _, ht, ?_, ?_, ?_, ?_⟩
  · show ((list.slots ++ List.replicate (slot + 1 - n_slots list)
        (DBusDataSlot.mk none none)).set slot (DBusDataSlot.mk data fdf)).length = slot + 1
    rw [List.length_set, hlen]
  · intro j hjn hjs
    simp only [slotListStore]
    rw [List.getElem?_set_ne (by omega : slot ≠ j)]
    exact grown_getElem_ge hjn (by omega)
  · simp only [slotListStore]
    rw [List.getD_eq_getElem?_getD, hg]
    rfl
  · simp only [slotListStore]
    rw [List.getD_eq_getElem?_getD, hg]
    rfl

/-- Witness for C6: setting slot 2 on a one-entry list grows it to three
entries, zero-filling the middle entry; with a failing realloc oracle the
call reports failure. -/
theorem set_grows_minimally_witness :
    _dbus_data_slot_list_set false
      (DBusDataSlotList.mk [DBusDataSlot.mk (some 1) none]) 2 (some 9) (some 4) = none ∧
    ∃ r, _dbus_data_slot_list_set true
        (DBusDataSlotList.mk [DBusDataSlot.mk (some 1) none]) 2 (some 9) (some 4) = some r ∧
      n_slots r.list = 2 + 1 ∧
      (∀ j : Nat, n_slots (DBusDataSlotList.mk [DBusDataSlot.mk (some 1) none]) ≤ j →
        j < 2 → r.list.slots[j]? = some (DBusDataSlot.mk none none)) ∧
      r.old_data = none ∧ r.old_free_func = none :=
  set_grows_minimally (DBusDataSlotAllocator.mk [0, 1, 2] 3)
    (DBusDataSlotList.mk [DBusDataSlot.mk (some 1) none]) 2 (some 9) (some 4)
    (by decide) (by decide)

/-- Claim C7: `_dbus_data_slot_list_get` never mutates the list; for a slot
at or beyond the list length it returns absent, and for a slot within the
length it returns exactly the stored value (possibly absent). -/
theorem get_reads_only (allocator : DBusDataSlotAllocator)
    (list : DBusDataSlotList) (slot : Nat)
    (hvalid : slotAllocated allocator slot) :
    (_dbus_data_slot_list_get list slot).2 = list ∧
    (n_slots list ≤ slot → (_dbus_data_slot_list_get list slot).1 = none) ∧
    (slot < n_slots list →
      (_dbus_data_slot_list_get list slot).1 =
        ((list.slots[slot]?).getD (DBusDataSlot.mk none none)).data) := by
  unfold _dbus_data_slot_list_get
  by_cases h : slot ≥ n_slots list
  · rw [if_pos h]
    exact ⟨rfl, fun _ => rfl, fun hlt => absurd hlt (by omega)⟩
  · rw [if_neg h]
    refine ⟨rfl, fun hle => absurd hle (by omega), fun _ => ?_⟩
    show (list.slots.getD slot (DBusDataSlot.mk none none)).data = _
    rw [List.getD_eq_getElem?_getD]

/-- Witness for C7: reading slot 0 of a one-entry list returns the stored
value and leaves the list unchanged. -/
theorem get_reads_only_witness :
    (_dbus_data_slot_list_get (DBusDataSlotList.mk [DBusDataSlot.mk (some 4) none]) 0).2 =
      DBusDataSlotList.mk [DBusDataSlot.mk (some 4) none] ∧
    (n_slots (DBusDataSlotList.mk [DBusDataSlot.mk (some 4) none]) ≤ 0 →
      (_dbus_data_slot_list_get (DBusDataSlotList.mk [DBusDataSlot.mk (some 4) none]) 0).1 = none) ∧
    (0 < n_slots (DBusDataSlotList.mk [DBusDataSlot.mk (some 4) none]) →
      (_dbus_data_slot_list_get (DBusDataSlotList.mk [DBusDataSlot.mk (some 4) none]) 0).1 =
        (((DBusDataSlotList.mk [DBusDataSlot.mk (some 4) none]).slots[0]?).getD
          (DBusDataSlot.mk none none)).data) :=
  get_reads_only (DBusDataSlotAllocator.mk [0] 1)
    (DBusDataSlotList.mk [DBusDataSlot.mk (some 4) none]) 0 (by decide)

/-- Claim C8: `_dbus_data_slot_list_free` invokes, for each entry in
ascending index order whose destructor is present, that destructor exactly
once on the entry's stored value (the trace is exactly the in-order
filter-map of the entries), and then resets the list to the empty state. -/
theorem list_free_runs_destructors (list : DBusDataSlotList) :
    _dbus_data_slot_list_free list =
      (list.slots.filterMap (fun s => s.free_data_func.map (fun f => (f, s.data))),
        _dbus_data_slot_list_init) ∧
    n_slots (_dbus_data_slot_list_free list).2 = 0 := by
  constructor
  · unfold _dbus_data_slot_list_free
    rw [slotListFreeLoop_eq_filterMap]
    rfl
  · rfl

/-- Claim C9: a `_dbus_data_slot_list_set` on a slot already within the
list's length performs no growth and cannot fail: it succeeds regardless of
the realloc oracle and leaves `n_slots` unchanged. -/
theorem set_in_range_always_succeeds (allocator : DBusDataSlotAllocator)
    (list : DBusDataSlotList) (slot : Nat) (data : Option Int)
    (fdf : Option Nat) (g : Bool) (hvalid : slotAllocated allocator slot)
    (h : slot < n_slots list) :
    ∃ r, _dbus_data_slot_list_set g list slot data fdf = some r ∧
      n_slots r.list = n_slots list := by
  refine ⟨slotListStore list.slots slot data fdf, set_in_range_eq g h data fdf, ?_⟩
  show (list.slots.set slot (DBusDataSlot.mk data fdf)).length = list.slots.length
  exact List.length_set list.slots slot (DBusDataSlot.mk data fdf)

/-- Witness for C9: with a failing realloc oracle, setting the in-range
slot 0 of a two-entry list still succeeds and keeps the length at 2. -/
theorem set_in_range_always_succeeds_witness :
    ∃ r, _dbus_data_slot_list_set false
        (DBusDataSlotList.mk [DBusDataSlot.mk none none, DBusDataSlot.mk (some 3) (some 4)])
        0 (some 6) none = some r ∧
      n_slots r.list =
        n_slots (DBusDataSlotList.mk
          [DBusDataSlot.mk none none, DBusDataSlot.mk (some 3) (some 4)]) :=
  set_in_range_always_succeeds (DBusDataSlotAllocator.mk [0] 1)
    (DBusDataSlotList.mk [DBusDataSlot.mk none none, DBusDataSlot.mk (some 3) (some 4)])
    0 (some 6) none false (by decide) (by decide)

/-- Claim C10: a successful `_dbus_data_slot_list_set` modifies only the
entry at the written slot: any other index that existed in the list before
the call still holds exactly the same `(value, destructor)` pair. -/
theorem set_preserves_other_slots (allocator : DBusDataSlotAllocator)
    (list : DBusDataSlotList) (slot : Nat) (data : Option Int)
    (fdf : Option Nat) (g : Bool) (r : SetResult) (j : Nat)
    (hvalid : slotAllocated allocator slot)
    (hsucc : _dbus_data_slot_list_set g list slot data fdf = some r)
    (hj : j < n_slots list) (hjs : j ≠ slot) :
    r.list.slots[j]? = list.slots[j]? := by
  by_cases h : n_slots list ≤ slot
  · cases g with
    | false =>
      rw [(set_grow_eq h data fdf).2] at hsucc
      cases hsucc
    | true =>
      rw [(set_grow_eq h data fdf).1] at hsucc
      injection hsucc with hr
      subst hr
      simp only [slotListStore]
      rw [List.getElem?_set_ne (Ne.symm hjs)]
      exact grown_getElem_lt hj
  · rw [set_in_range_eq g (by omega) data fdf] at hsucc
    injection hsucc with hr
    subst hr
    simp only [slotListStore]
    exact List.getElem?_set_ne (Ne.symm hjs)

/-- Witness for C10: setting slot 1 of a two-entry list leaves the entry at
index 0 unchanged. -/
theorem set_preserves_other_slots_witness :
    (slotListStore [DBusDataSlot.mk (some 1) none, DBusDataSlot.mk (some 2) none]
        1 (some 9) none).list.slots[0]? =
      (DBusDataSlotList.mk
        [DBusDataSlot.mk (some 1) none, DBusDataSlot.mk (some 2) none]).slots[0]? :=
  set_preserves_other_slots (DBusDataSlotAllocator.mk [0, 1] 2)
    (DBusDataSlotList.mk [DBusDataSlot.mk (some 1) none, DBusDataSlot.mk (some 2) none])
    1 (some 9) none true
    (slotListStore [DBusDataSlot.mk (some 1) none, DBusDataSlot.mk (some 2) none]
      1 (some 9) none)
    0 (by decide) (by decide) (by decide) (by decide)
